import Mathlib

/-!
# Verification of `ducksearch`'s batched search orchestration layer

Shallow embedding of `src/ducksearch/search/select.py`.

Modelling conventions:

* A retrieved record (a Python dict as produced by the DuckDB `fetch_df`
  result) is an association list of field names to field values.  The
  `_query` column that tags every match with its originating query text is
  kept separate, so a raw match is a pair `(tag, record)`; `match.pop("_query")`
  is the second projection.
* The retrieval engine (`_search_query` / `_search_query_filters`, whose SQL
  lives outside this repository's `src/` snapshot) is an abstract parameter:
  a function from the batch index and the batch's query list (and, in the
  stateful embedding, the schema state) to the flat list of tagged matches.
  Its contractual properties (at most `top_k` matches per query text, records
  carrying `id`/`score` fields) are taken as hypotheses where a claim needs
  them.
* `joblib.Parallel` is modelled as an in-order dispatch loop: `Parallel`
  returns task results in submission order regardless of completion order,
  and raises the exception of a failing task (fail-fast).  Fallible steps are
  embedded with `Except`.
* The filesystem is modelled as the list of transient exchange-file names
  currently present; `pq.write_table` adds a name, `os.remove` erases it.
-/

/-- A retrieved record with the `_query` tag already removed: an association
list of field names to values (the Python dict). -/
abbrev Rec := List (String × String)

/-- A raw match as returned by the engine: the `_query` tag paired with the
rest of the record. -/
abbrev Match := String × Rec

/-- One step of the aggregation loop of `_search`
(`candidates[query].append(match)` after `query = match.pop("_query")`):
extend the candidate map at the match's tag with the untagged record. -/
def addMatch (cand : String → List Rec) (m : Match) : String → List Rec :=
  fun q => if q = m.1 then cand q ++ [m.2] else cand q

/-- The `collections.defaultdict(list)` built by `_search`'s aggregation loop:
fold `addMatch` over the flat match list, starting from the empty default. -/
def candidatesOf (matchs : List Match) : String → List Rec :=
  matchs.foldl addMatch (fun _ => [])

/-- The value `_search` returns:
`[candidates[query] for query in queries]` — one slot per batch position,
each slot the candidate list looked up by that position's query text. -/
def searchBatchSlots (matchs : List Match) (queries : List String) : List (List Rec) :=
  queries.map (candidatesOf matchs)

/-- Modelled from the spec: `batchify` (imported from `..utils`, not part of
the `src/` snapshot) partitions the query list into consecutive batches of
`batch_size` elements, the last batch possibly smaller.  A `batch_size` of
zero is a `ValueError` in Python (`range` with step 0) and yields no batches
here. -/
def batchify : List String → Nat → List (List String)
  | [], _ => []
  | _ :: _, 0 => []
  | x :: xs, b + 1 => (x :: xs).take (b + 1) :: batchify (xs.drop b) (b + 1)
termination_by X _ => X.length
decreasing_by
  simp only [List.length_cons, List.length_drop]
  omega

/-- The `k`-th batch, described directly: drop the first `k` full batches,
take one batch. -/
def nthBatch (Q : List String) (bs k : Nat) : List String :=
  (Q.drop (bs * k)).take bs

/-- Normalization at the top of `search`:
`if isinstance(queries, str): queries = [queries]`. -/
def normalizeQueries : String ⊕ List String → List String
  | Sum.inl s => [s]
  | Sum.inr l => l

/-- The parallel dispatch loop of `search` in its pure, all-successful form:
`Parallel(...)(delayed(_search)(...) for index, batch_queries in enumerate(batchify(...)))`
followed by `matchs.extend(match)`.  `joblib.Parallel` yields results in
submission order, so the loop concatenates per-batch slot lists in batch
order. -/
def dispatchP (engine : Nat → List String → List Match) :
    Nat → List (List String) → List (List Rec)
  | _, [] => []
  | idx, b :: rest =>
    searchBatchSlots (engine idx b) b ++ dispatchP engine (idx + 1) rest

/-- The pure embedding of `search`: normalize the input, split into batches,
dispatch every batch to `_search`, concatenate the per-batch slot lists. -/
def searchP (engine : Nat → List String → List Match)
    (queries : String ⊕ List String) (batch_size : Nat) : List (List Rec) :=
  dispatchP engine 0 (batchify (normalizeQueries queries) batch_size)

/-- `n_jobs=1 if len(queries) <= batch_size else n_jobs` (line 385). -/
def effective_n_jobs (nQueries batch_size : Nat) (n_jobs : Int) : Int :=
  if nQueries ≤ batch_size then 1 else n_jobs

/-- Modelled from the spec: `joblib` interprets the sentinel `n_jobs = -1` as
"use all available processors"; a positive `n_jobs` is the worker count
itself. -/
def joblibWorkers (n_jobs : Int) (cpus : Nat) : Nat :=
  if n_jobs = -1 then cpus else n_jobs.toNat

/-! ## Filesystem model for the transient exchange artifacts -/

/-- The per-batch parquet file name: `f"_queries_{index}.parquet"`. -/
def batchFile (idx : Nat) : String :=
  "_queries_" ++ toString idx ++ ".parquet"

/-- The top-level staged-queries file name written by `search`. -/
def topFile : String := "_queries.parquet"

/-- `pq.write_table` to name `n`: afterwards the file exists (writing over an
existing file leaves one file). -/
def fsWrite (n : String) (fs : List String) : List String :=
  if n ∈ fs then fs else n :: fs

/-- `os.remove`. -/
def fsRemove (n : String) (fs : List String) : List String :=
  fs.erase n

/-! ## Full (stateful, fallible) embedding

`σ` is the persistent schema state, `ε` the exception type, `Settings` the
row returned by `_select_settings`.  The engine of the batched phase is
read-only on `σ` (the decorated `_search_query`/`_search_query_filters` are
declared `read_only=True`), hence has type `σ → Except ε (List Match)` and
cannot modify the schema. -/

/-- One `_search` call (lines 224–284) with its file effects and failure
behaviour, plus the dispatch loop over the remaining batches.  Each batch:
write `_queries_{index}.parquet`; run the (read-only, fallible) engine — an
exception propagates immediately, leaving the file behind; on success remove
the file if it exists, aggregate the slots, and continue with the next batch.
Returns the search outcome, the (unchanged) schema state, and the final file
state. -/
def dispatchBatches (engine : Nat → List String → σ → Except ε (List Match)) :
    Nat → List (List String) → σ → List String →
      Except ε (List (List Rec)) × σ × List String
  | _, [], st, fs => (Except.ok [], st, fs)
  | idx, b :: rest, st, fs =>
    let fname := batchFile idx
    let fs1 := fsWrite fname fs
    match engine idx b st with
    | Except.error e => (Except.error e, st, fs1)
    | Except.ok matchs =>
      let fs2 := if fname ∈ fs1 then fsRemove fname fs1 else fs1
      match dispatchBatches engine (idx + 1) rest st fs2 with
      | (Except.ok restSlots, st1, fs3) =>
          (Except.ok (searchBatchSlots matchs b ++ restSlots), st1, fs3)
      | (Except.error e, st1, fs3) => (Except.error e, st1, fs3)

/-- The full embedding of `search` (lines 287–405): normalize; resolve the
schema settings (`ConfigurationError` possible); write the top-level
`_queries.parquet`; load it into the schema's query table
(`_insert_queries`); build the query index (`_create_queries_index`); then
run the batched retrieval phase.  Any failure propagates unmodified, exactly
where the Python exception would abort the call.  Returns the outcome, the
final schema state and the final file state. -/
def searchFull (selectSettings : Except ε Settings)
    (insertQ : σ → List String → Except ε σ)
    (createIdx : Settings → σ → Except ε σ)
    (engine : Nat → List String → σ → Except ε (List Match))
    (queries0 : String ⊕ List String) (batch_size : Nat)
    (s0 : σ) (fs0 : List String) :
    Except ε (List (List Rec)) × σ × List String :=
  let queries := normalizeQueries queries0
  match selectSettings with
  | Except.error e => (Except.error e, s0, fs0)
  | Except.ok stg =>
    let fs1 := fsWrite topFile fs0
    match insertQ s0 queries with
    | Except.error e => (Except.error e, s0, fs1)
    | Except.ok s1 =>
      match createIdx stg s1 with
      | Except.error e => (Except.error e, s1, fs1)
      | Except.ok s2 =>
        let out := dispatchBatches engine 0 (batchify queries batch_size) s2 fs1
        (out.1, out.2.1, out.2.2)

/-! ## Basic lemmas about the aggregation -/

/-- Unfolding the defaultdict fold: the candidate list of `q` is the
subsequence of matches tagged `q`, in arrival order, with the tag removed. -/
theorem candidatesOf_eq_filter (matchs : List Match) (q : String) :
    candidatesOf matchs q = (matchs.filter (fun m => m.1 = q)).map Prod.snd := by
  suffices h : ∀ (ms : List Match) (f : String → List Rec),
      (ms.foldl addMatch f) q = f q ++ (ms.filter (fun m => m.1 = q)).map Prod.snd by
    simpa [candidatesOf] using h matchs (fun _ => [])
  intro ms
  induction ms with
  | nil => intro f; simp
  | cons m rest ih =>
    intro f
    simp only [List.foldl_cons, ih, List.filter_cons]
    by_cases hm : m.1 = q
    · simp [addMatch, hm, List.append_assoc]
    · have hq : ¬ q = m.1 := fun h => hm h.symm
      simp [addMatch, hm, hq]

theorem length_searchBatchSlots (matchs : List Match) (queries : List String) :
    (searchBatchSlots matchs queries).length = queries.length := by
  simp [searchBatchSlots]

theorem getD_searchBatchSlots (matchs : List Match) (queries : List String)
    (i : Nat) (hi : i < queries.length) :
    (searchBatchSlots matchs queries).getD i [] =
      candidatesOf matchs (queries.getD i "") := by
  have hlen : i < (searchBatchSlots matchs queries).length := by
    simpa [length_searchBatchSlots] using hi
  rw [List.getD_eq_getElem _ _ hlen, List.getD_eq_getElem _ _ hi]
  simp [searchBatchSlots]

/-! ## Length and order preservation of the dispatch loop -/

theorem length_dispatchP_batchify (engine : Nat → List String → List Match) :
    ∀ (Q : List String) (bs : Nat), bs ≠ 0 → ∀ (idx : Nat),
      (dispatchP engine idx (batchify Q bs)).length = Q.length := by
  intro Q bs
  induction Q, bs using batchify.induct with
  | case1 bs => intro _ idx; simp [batchify, dispatchP]
  | case2 x xs => intro h; exact absurd rfl h
  | case3 x xs b ih =>
    intro _ idx
    simp only [batchify, dispatchP, List.length_append, length_searchBatchSlots]
    rw [ih (Nat.succ_ne_zero b) (idx + 1)]
    simp only [List.length_take, List.length_cons, List.length_drop]
    omega

theorem nthBatch_zero (Q : List String) (bs : Nat) :
    nthBatch Q bs 0 = Q.take bs := by
  simp [nthBatch]

theorem nthBatch_succ (x : String) (xs : List String) (b k : Nat) :
    nthBatch (x :: xs) (b + 1) (k + 1) = nthBatch (xs.drop b) (b + 1) k := by
  simp only [nthBatch]
  rw [List.drop_drop]
  have h : (b + 1) * (k + 1) = (b + (b + 1) * k) + 1 := by ring
  rw [h, List.drop_succ_cons]

theorem getD_drop (l : List String) (n j : Nat) (d : String) (h : n + j < l.length) :
    (l.drop n).getD j d = l.getD (n + j) d := by
  have hj : j < (l.drop n).length := by simp [List.length_drop]; omega
  rw [List.getD_eq_getElem _ _ hj, List.getD_eq_getElem _ _ h]
  exact (List.getElem_drop' l h).symm

theorem getD_take (l : List String) (n j : Nat) (d : String) (hj : j < n)
    (h : j < l.length) : (l.take n).getD j d = l.getD j d := by
  have hjt : j < (l.take n).length := by simp [List.length_take]; omega
  rw [List.getD_eq_getElem _ _ hjt, List.getD_eq_getElem _ _ h]
  exact List.getElem_take l

/-- The central order-preservation lemma: position `i` of the dispatched,
concatenated output is the candidate list computed from the batch containing
position `i` (batch number `i / bs`, engine index offset by `idx`), looked up
at the query text `Q[i]`. -/
theorem getD_dispatchP_batchify (engine : Nat → List String → List Match) :
    ∀ (Q : List String) (bs : Nat), bs ≠ 0 → ∀ (idx i : Nat), i < Q.length →
      (dispatchP engine idx (batchify Q bs)).getD i [] =
        candidatesOf (engine (idx + i / bs) (nthBatch Q bs (i / bs)))
          (Q.getD i "") := by
  intro Q bs
  induction Q, bs using batchify.induct with
  | case1 bs => intro _ idx i hi; simp at hi
  | case2 x xs => intro h; exact absurd rfl h
  | case3 x xs b ih =>
    intro _ idx i hi
    simp only [batchify, dispatchP]
    by_cases hib : i < b + 1
    · have hlen : i < (searchBatchSlots (engine idx ((x :: xs).take (b + 1)))
          ((x :: xs).take (b + 1))).length := by
        simp only [length_searchBatchSlots, List.length_take]
        simp only [List.length_cons] at hi ⊢
        omega
      rw [List.getD_append _ _ _ _ hlen]
      rw [getD_searchBatchSlots _ _ _ (by simpa [length_searchBatchSlots] using hlen)]
      rw [getD_take _ _ _ _ hib hi]
      rw [Nat.div_eq_of_lt hib, nthBatch_zero]
      simp
    · have hbi : b + 1 ≤ i := Nat.le_of_not_lt hib
      have hlen : (searchBatchSlots (engine idx ((x :: xs).take (b + 1)))
          ((x :: xs).take (b + 1))).length = b + 1 := by
        simp only [length_searchBatchSlots, List.length_take]
        simp only [List.length_cons] at hi ⊢
        omega
      rw [List.getD_append_right _ _ _ _ (by rw [hlen]; exact hbi)]
      rw [hlen]
      have hi' : i - (b + 1) < (xs.drop b).length := by
        simp only [List.length_drop]
        simp only [List.length_cons] at hi
        omega
      rw [ih (Nat.succ_ne_zero b) (idx + 1) (i - (b + 1)) hi']
      have hdiv : i / (b + 1) = (i - (b + 1)) / (b + 1) + 1 := by
        conv_lhs => rw [Nat.div_eq]
        rw [if_pos ⟨Nat.succ_pos b, hbi⟩]
      rw [hdiv, nthBatch_succ]
      have harith : idx + 1 + (i - (b + 1)) / (b + 1) =
          idx + ((i - (b + 1)) / (b + 1) + 1) := by omega
      rw [harith]
      have hq : (xs.drop b).getD (i - (b + 1)) "" = (x :: xs).getD i "" := by
        have hbj : b + (i - (b + 1)) < xs.length := by
          simp only [List.length_cons] at hi
          omega
        rw [getD_drop _ _ _ _ hbj]
        have h2 : (x :: xs).getD i "" = xs.getD (i - 1) "" := by
          cases i with
          | zero => omega
          | succ j => simp
        rw [h2]
        congr 1
        omega
      rw [hq]

/-- The query text at position `i` is a member of the batch containing
position `i` (batch number `i / bs`). -/
theorem getD_mem_nthBatch (Q : List String) (bs : Nat) (hbs : bs ≠ 0)
    (i : Nat) (hi : i < Q.length) :
    Q.getD i "" ∈ nthBatch Q bs (i / bs) := by
  have hmod : i % bs < bs := Nat.mod_lt _ (Nat.pos_of_ne_zero hbs)
  have hdm : bs * (i / bs) + i % bs = i := Nat.div_add_mod i bs
  have hlen : i % bs < (nthBatch Q bs (i / bs)).length := by
    simp only [nthBatch, List.length_take, List.length_drop]
    omega
  have hval : (nthBatch Q bs (i / bs)).getD (i % bs) "" = Q.getD i "" := by
    simp only [nthBatch]
    rw [getD_take _ _ _ _ hmod (by simp only [List.length_drop]; omega)]
    rw [getD_drop _ _ _ _ (by omega)]
    congr 1
  rw [← hval, List.getD_eq_getElem _ _ hlen]
  exact List.getElem_mem hlen

/-! ## File, schema-state and failure behaviour of the dispatch loop -/

/-- When every batch retrieval succeeds and no stale per-batch file is
present, the dispatch loop leaves the file state exactly as it found it:
each batch's artifact is written and then removed. -/
theorem dispatchBatches_files_ok {σ ε : Type}
    (engine : Nat → List String → σ → Except ε (List Match)) (st : σ) :
    ∀ (B : List (List String)) (idx : Nat) (fs : List String),
      (∀ i b, ∃ ms, engine i b st = Except.ok ms) →
      (∀ i, batchFile i ∉ fs) →
      (dispatchBatches engine idx B st fs).2.2 = fs := by
  intro B
  induction B with
  | nil => intro idx fs _ _; rfl
  | cons b rest ih =>
    intro idx fs hok hnb
    obtain ⟨ms, hms⟩ := hok idx b
    have hw : fsWrite (batchFile idx) fs = batchFile idx :: fs := by
      simp [fsWrite, hnb idx]
    have hrm : (if batchFile idx ∈ batchFile idx :: fs
        then fsRemove (batchFile idx) (batchFile idx :: fs)
        else batchFile idx :: fs) = fs := by
      simp [fsRemove]
    have hrec := ih (idx + 1) fs hok hnb
    simp only [dispatchBatches, hw, hms, hrm]
    rcases hds : dispatchBatches engine (idx + 1) rest st fs with ⟨r, st1, fs3⟩
    rw [hds] at hrec
    simp only at hrec
    cases r <;> simpa using hrec

/-- The batched retrieval phase never touches the schema state: the engine is
read-only (`read_only=True` on the decorated search functions), so the state
threaded through the dispatch loop comes out unchanged, whatever the batch
outcomes. -/
theorem dispatchBatches_state {σ ε : Type}
    (engine : Nat → List String → σ → Except ε (List Match)) :
    ∀ (B : List (List String)) (idx : Nat) (st : σ) (fs : List String),
      (dispatchBatches engine idx B st fs).2.1 = st := by
  intro B
  induction B with
  | nil => intro idx st fs; rfl
  | cons b rest ih =>
    intro idx st fs
    simp only [dispatchBatches]
    cases hE : engine idx b st with
    | error e => rfl
    | ok ms =>
      have hrec := ih (idx + 1) st
        (if batchFile idx ∈ fsWrite (batchFile idx) fs
          then fsRemove (batchFile idx) (fsWrite (batchFile idx) fs)
          else fsWrite (batchFile idx) fs)
      rcases hds : dispatchBatches engine (idx + 1) rest st
          (if batchFile idx ∈ fsWrite (batchFile idx) fs
            then fsRemove (batchFile idx) (fsWrite (batchFile idx) fs)
            else fsWrite (batchFile idx) fs) with ⟨r, st1, fs3⟩
      rw [hds] at hrec
      simp only at hrec
      cases r <;> simpa using hrec

/-- Fail-fast error propagation through the dispatch loop: if the batches
before `k` all succeed and batch `k` raises `e`, the loop's outcome is
exactly `e`. -/
theorem dispatchBatches_error {σ ε : Type}
    (engine : Nat → List String → σ → Except ε (List Match)) (st : σ) :
    ∀ (B : List (List String)) (k idx : Nat) (fs : List String) (e : ε),
      k < B.length →
      (∀ i, i < k → ∃ ms, engine (idx + i) (B.getD i []) st = Except.ok ms) →
      engine (idx + k) (B.getD k []) st = Except.error e →
      (dispatchBatches engine idx B st fs).1 = Except.error e := by
  intro B
  induction B with
  | nil => intro k idx fs e hk; simp at hk
  | cons b rest ih =>
    intro k idx fs e hk hok hfail
    cases k with
    | zero =>
      simp only [List.getD_cons_zero, Nat.add_zero] at hfail
      simp only [dispatchBatches, hfail]
    | succ k0 =>
      obtain ⟨ms, hms⟩ := hok 0 (Nat.succ_pos k0)
      simp only [List.getD_cons_zero, Nat.add_zero] at hms
      simp only [dispatchBatches, hms]
      have hrec := ih k0 (idx + 1)
        (if batchFile idx ∈ fsWrite (batchFile idx) fs
          then fsRemove (batchFile idx) (fsWrite (batchFile idx) fs)
          else fsWrite (batchFile idx) fs) e
        (by simpa using Nat.lt_of_succ_lt_succ hk)
        (fun i hi => by
          have := hok (i + 1) (Nat.succ_lt_succ hi)
          simpa [Nat.add_assoc, Nat.add_comm 1 i] using this)
        (by
          have h := hfail
          simpa [Nat.add_assoc, Nat.add_comm 1 k0] using h)
      rcases hds : dispatchBatches engine (idx + 1) rest st
          (if batchFile idx ∈ fsWrite (batchFile idx) fs
            then fsRemove (batchFile idx) (fsWrite (batchFile idx) fs)
            else fsWrite (batchFile idx) fs) with ⟨r, st1, fs3⟩
      rw [hds] at hrec
      simp only at hrec
      cases r with
      | error e2 => simpa using hrec
      | ok v => simp at hrec

/-- Bridge between the fallible, stateful dispatch loop and its pure
projection: when every batch retrieval succeeds, the outcome is `ok` of the
pure dispatch result. -/
theorem dispatchBatches_ok_eq {σ ε : Type}
    (engineF : Nat → List String → σ → Except ε (List Match))
    (engineP : Nat → List String → List Match) (st : σ)
    (hE : ∀ i b, engineF i b st = Except.ok (engineP i b)) :
    ∀ (B : List (List String)) (idx : Nat) (fs : List String),
      (dispatchBatches engineF idx B st fs).1 = Except.ok (dispatchP engineP idx B) := by
  intro B
  induction B with
  | nil => intro idx fs; rfl
  | cons b rest ih =>
    intro idx fs
    simp only [dispatchBatches, hE, dispatchP]
    have hrec := ih (idx + 1)
      (if batchFile idx ∈ fsWrite (batchFile idx) fs
        then fsRemove (batchFile idx) (fsWrite (batchFile idx) fs)
        else fsWrite (batchFile idx) fs)
    rcases hds : dispatchBatches engineF (idx + 1) rest st
        (if batchFile idx ∈ fsWrite (batchFile idx) fs
          then fsRemove (batchFile idx) (fsWrite (batchFile idx) fs)
          else fsWrite (batchFile idx) fs) with ⟨r, st1, fs3⟩
    rw [hds] at hrec
    simp only at hrec
    cases r with
    | error e2 => simp at hrec
    | ok v =>
      have hv : v = dispatchP engineP (idx + 1) rest := by simpa using hrec
      rw [hv]

/-- The per-batch artifact names never collide with the top-level staged
artifact: their lengths differ. -/
theorem batchFile_ne_topFile (i : Nat) : batchFile i ≠ topFile := by
  intro h
  have hl : (batchFile i).length = (topFile : String).length := congrArg String.length h
  have h1 : ("_queries_" : String).length = 9 := rfl
  have h2 : (".parquet" : String).length = 8 := rfl
  have h3 : (topFile : String).length = 16 := rfl
  simp only [batchFile, String.length_append, h1, h2, h3] at hl
  omega

/-! ## Derived facts about the pure search -/

theorem length_searchP (engine : Nat → List String → List Match)
    (Q : List String) (bs : Nat) (hbs : bs ≠ 0) :
    (searchP engine (Sum.inr Q) bs).length = Q.length :=
  length_dispatchP_batchify engine Q bs hbs 0

/-- Slot `i` of the pure search, written as a tag filter over the engine
response for the batch containing position `i`. -/
theorem getD_searchP (engine : Nat → List String → List Match)
    (Q : List String) (bs : Nat) (hbs : bs ≠ 0) (i : Nat) (hi : i < Q.length) :
    (searchP engine (Sum.inr Q) bs).getD i [] =
      ((engine (i / bs) (nthBatch Q bs (i / bs))).filter
        (fun m => m.1 = Q.getD i "")).map Prod.snd := by
  have h := getD_dispatchP_batchify engine Q bs hbs 0 i hi
  simp only [searchP, normalizeQueries]
  rw [h, Nat.zero_add, candidatesOf_eq_filter]

/-- Under the engine's per-query contract, slot `i` is exactly the fixed
candidate list of the query text at position `i`. -/
theorem getD_searchP_contract (engine : Nat → List String → List Match)
    (perQuery : String → List Rec)
    (hc : ∀ idx batch q, q ∈ batch →
      ((engine idx batch).filter (fun m => m.1 = q)).map Prod.snd = perQuery q)
    (Q : List String) (bs : Nat) (hbs : bs ≠ 0) (i : Nat) (hi : i < Q.length) :
    (searchP engine (Sum.inr Q) bs).getD i [] = perQuery (Q.getD i "") := by
  rw [getD_searchP engine Q bs hbs i hi]
  exact hc _ _ _ (getD_mem_nthBatch Q bs hbs i hi)

/-! ## Sample engines for concrete instantiations -/

/-- A sample engine: one fixed record, tagged `"a"`, whatever the batch. -/
def egEngine : Nat → List String → List Match :=
  fun _ _ => [("a", [("id", "7"), ("score", "0.5")])]

/-- A sample engine that never returns matches. -/
def egEmptyEngine : Nat → List String → List Match := fun _ _ => []

/-! ## The claims -/

/-- Claim C1: for every query list `Q`, `search` returns exactly `len(Q)`
result slots, and slot `i` is the candidate list computed for the query text
`Q[i]` from the batch containing position `i` — output order matches input
order.  Batch completion order is immaterial: `joblib.Parallel` returns
per-batch results in submission order and the aggregation loop concatenates
them in that order, which is how the dispatch loop is modelled. -/
theorem C1_length_and_input_order (engine : Nat → List String → List Match)
    (Q : List String) (bs : Nat) (hbs : bs ≠ 0) :
    (searchP engine (Sum.inr Q) bs).length = Q.length ∧
    ∀ i, i < Q.length →
      (searchP engine (Sum.inr Q) bs).getD i [] =
        candidatesOf (engine (i / bs) (nthBatch Q bs (i / bs))) (Q.getD i "") := by
  refine ⟨length_searchP engine Q bs hbs, fun i hi => ?_⟩
  have h := getD_dispatchP_batchify engine Q bs hbs 0 i hi
  simp only [searchP, normalizeQueries]
  rw [h, Nat.zero_add]

/-- Witness for C1: three queries in batches of two; the slot at position 2
is the candidate list of `"a"` computed from batch 1. -/
theorem C1_length_and_input_order_witness :
    (searchP egEngine (Sum.inr ["a", "b", "a"]) 2).length = 3 ∧
    (searchP egEngine (Sum.inr ["a", "b", "a"]) 2).getD 2 [] =
      candidatesOf (egEngine (2 / 2) (nthBatch ["a", "b", "a"] 2 (2 / 2)))
        (["a", "b", "a"].getD 2 "") :=
  ⟨(C1_length_and_input_order egEngine ["a", "b", "a"] 2 (by decide)).1,
    (C1_length_and_input_order egEngine ["a", "b", "a"] 2 (by decide)).2 2 (by decide)⟩

/-- Claim C7: within a batch, the slot for position `i` is exactly the
subsequence of engine matches tagged with that position's query text, kept in
the order the engine returned them, with the `_query` tag removed and the
rest of each record unchanged. -/
theorem C7_slot_grouping (matchs : List Match) (queries : List String)
    (i : Nat) (hi : i < queries.length) :
    (searchBatchSlots matchs queries).getD i [] =
      (matchs.filter (fun m => m.1 = queries.getD i "")).map Prod.snd := by
  rw [getD_searchBatchSlots matchs queries i hi, candidatesOf_eq_filter]

/-- Witness for C7: three matches, two tagged `"a"`; the `"a"` slot keeps
both, in engine order, tags stripped. -/
theorem C7_slot_grouping_witness :
    (searchBatchSlots
        [("b", [("id", "1")]), ("a", [("id", "2")]), ("a", [("id", "3")])]
        ["a", "b"]).getD 0 [] = [[("id", "2")], [("id", "3")]] := by
  have h := C7_slot_grouping
    [("b", [("id", "1")]), ("a", [("id", "2")]), ("a", [("id", "3")])]
    ["a", "b"] 0 (by decide)
  rw [h]
  rfl

/-- Claim C3: two positions with identical query text — whether in the same
batch or in different batches — receive equal result slots, given the
engine's per-query contract (modelled from the spec: retrieval returns, for
each query text present in the staged batch, that text's fixed candidate
list, independent of the rest of the batch). -/
theorem C3_duplicate_queries_equal_slots (engine : Nat → List String → List Match)
    (perQuery : String → List Rec)
    (hc : ∀ idx batch q, q ∈ batch →
      ((engine idx batch).filter (fun m => m.1 = q)).map Prod.snd = perQuery q)
    (Q : List String) (bs : Nat) (hbs : bs ≠ 0)
    (i j : Nat) (hi : i < Q.length) (hj : j < Q.length)
    (hdup : Q.getD i "" = Q.getD j "") :
    (searchP engine (Sum.inr Q) bs).getD i [] =
      (searchP engine (Sum.inr Q) bs).getD j [] := by
  rw [getD_searchP_contract engine perQuery hc Q bs hbs i hi,
    getD_searchP_contract engine perQuery hc Q bs hbs j hj, hdup]

/-- Witness for C3: with batch size 1 the duplicate texts at positions 0 and
2 land in different batches, yet their slots agree. -/
theorem C3_duplicate_queries_equal_slots_witness :
    (searchP egEmptyEngine (Sum.inr ["a", "b", "a"]) 1).getD 0 [] =
      (searchP egEmptyEngine (Sum.inr ["a", "b", "a"]) 1).getD 2 [] :=
  C3_duplicate_queries_equal_slots egEmptyEngine (fun _ => [])
    (fun idx batch q _ => by simp [egEmptyEngine])
    ["a", "b", "a"] 1 (by decide) 0 2 (by decide) (by decide) (by decide)

/-- Claim C8: every result slot holds at most `top_k` records, given that the
engine returns at most `top_k` matches per query text (its `top_k` bound,
modelled from the spec's retrieval contract). -/
theorem C8_topk_bound (engine : Nat → List String → List Match) (top_k : Nat)
    (hb : ∀ idx batch q,
      ((engine idx batch).filter (fun m => m.1 = q)).length ≤ top_k)
    (Q : List String) (bs : Nat) (hbs : bs ≠ 0) (i : Nat) (hi : i < Q.length) :
    ((searchP engine (Sum.inr Q) bs).getD i []).length ≤ top_k := by
  rw [getD_searchP engine Q bs hbs i hi]
  simpa [List.length_map] using hb (i / bs) (nthBatch Q bs (i / bs)) (Q.getD i "")

/-- Witness for C8 with `top_k = 1`. -/
theorem C8_topk_bound_witness :
    ((searchP egEngine (Sum.inr ["a", "b"]) 30).getD 0 []).length ≤ 1 :=
  C8_topk_bound egEngine 1
    (fun idx batch q =>
      le_trans (List.length_filter_le _ _) (by simp [egEngine]))
    ["a", "b"] 30 (by decide) 0 (by decide)

/-- Claim C9: a single-string `queries` argument is normalized to the
one-element QuerySet; the call returns a length-1 list whose single slot
holds at most `top_k` records, each carrying `id` and `score` fields (the
record-field guarantee is the engine's output contract, modelled from the
spec). -/
theorem C9_single_string_normalization (engine : Nat → List String → List Match)
    (s : String) (top_k bs : Nat) (hbs : bs ≠ 0)
    (hb : ∀ idx batch q,
      ((engine idx batch).filter (fun m => m.1 = q)).length ≤ top_k)
    (hf : ∀ idx batch m, m ∈ engine idx batch →
      (∃ v, ("id", v) ∈ m.2) ∧ (∃ v, ("score", v) ∈ m.2)) :
    searchP engine (Sum.inl s) bs = searchP engine (Sum.inr [s]) bs ∧
    (searchP engine (Sum.inl s) bs).length = 1 ∧
    ((searchP engine (Sum.inl s) bs).getD 0 []).length ≤ top_k ∧
    ∀ r ∈ (searchP engine (Sum.inl s) bs).getD 0 [],
      (∃ v, ("id", v) ∈ r) ∧ (∃ v, ("score", v) ∈ r) := by
  have hnorm : searchP engine (Sum.inl s) bs = searchP engine (Sum.inr [s]) bs := rfl
  refine ⟨hnorm, ?_, ?_, ?_⟩
  · rw [hnorm, length_searchP engine [s] bs hbs, List.length_singleton]
  · rw [hnorm, getD_searchP engine [s] bs hbs 0 (by simp)]
    simpa [List.length_map] using hb (0 / bs) (nthBatch [s] bs (0 / bs)) ([s].getD 0 "")
  · intro r hr
    rw [hnorm, getD_searchP engine [s] bs hbs 0 (by simp)] at hr
    obtain ⟨m, hmf, hmr⟩ := List.mem_map.mp hr
    have hm : m ∈ engine (0 / bs) (nthBatch [s] bs (0 / bs)) :=
      (List.mem_filter.mp hmf).1
    have hfm := hf _ _ m hm
    rwa [hmr] at hfm

/-- Witness for C9 at `s = "random query"`, `top_k = 1`, `batch_size = 30`. -/
theorem C9_single_string_normalization_witness :
    searchP egEngine (Sum.inl "random query") 30 =
      searchP egEngine (Sum.inr ["random query"]) 30 ∧
    (searchP egEngine (Sum.inl "random query") 30).length = 1 ∧
    ((searchP egEngine (Sum.inl "random query") 30).getD 0 []).length ≤ 1 ∧
    ∀ r ∈ (searchP egEngine (Sum.inl "random query") 30).getD 0 [],
      (∃ v, ("id", v) ∈ r) ∧ (∃ v, ("score", v) ∈ r) :=
  C9_single_string_normalization egEngine "random query" 1 30 (by decide)
    (fun idx batch q =>
      le_trans (List.length_filter_le _ _) (by simp [egEngine]))
    (fun idx batch m hm => by
      simp only [egEngine, List.mem_singleton] at hm
      subst hm
      exact ⟨⟨"7", by simp⟩, ⟨"0.5", by simp⟩⟩)

/-- Claim C10: a query whose text tags no engine match for its batch receives
an empty list at its position — the position is still present (the output
keeps one slot per input position) and no error is raised — and the empty
QuerySet yields the empty ResultSet. -/
theorem C10_unmatched_query_empty_slot (engine : Nat → List String → List Match)
    (Q : List String) (bs : Nat) (hbs : bs ≠ 0) (i : Nat) (hi : i < Q.length)
    (hnone : ∀ m ∈ engine (i / bs) (nthBatch Q bs (i / bs)),
      m.1 ≠ Q.getD i "") :
    searchP engine (Sum.inr []) bs = [] ∧
    (searchP engine (Sum.inr Q) bs).length = Q.length ∧
    (searchP engine (Sum.inr Q) bs).getD i [] = [] := by
  refine ⟨by simp [searchP, normalizeQueries, batchify, dispatchP],
    length_searchP engine Q bs hbs, ?_⟩
  rw [getD_searchP engine Q bs hbs i hi]
  have hfil : (engine (i / bs) (nthBatch Q bs (i / bs))).filter
      (fun m => m.1 = Q.getD i "") = [] := by
    rw [List.filter_eq_nil_iff]
    intro m hm
    simpa using hnone m hm
  rw [hfil]
  rfl

/-- Witness for C10: the engine tags only `"a"`, the query is `"zzz"`. -/
theorem C10_unmatched_query_empty_slot_witness :
    searchP egEngine (Sum.inr []) 30 = [] ∧
    (searchP egEngine (Sum.inr ["zzz"]) 30).length = 1 ∧
    (searchP egEngine (Sum.inr ["zzz"]) 30).getD 0 [] = [] :=
  C10_unmatched_query_empty_slot egEngine ["zzz"] 30 (by decide) 0 (by decide)
    (fun m hm => by
      simp only [egEngine, List.mem_singleton] at hm
      subst hm
      decide)

/-- Claim C5: when the whole QuerySet fits in one batch
(`len(queries) <= batch_size`, which indeed produces at most one batch),
dispatch is strictly serial — `n_jobs` is forced to 1; otherwise the
configured `n_jobs` is used, where the sentinel `-1` means all available
hardware concurrency (the `joblib` interpretation, modelled from the spec). -/
theorem C5_concurrency_policy (q bs : Nat) (n : Int) (cpus : Nat)
    (Q : List String) :
    (q ≤ bs → effective_n_jobs q bs n = 1) ∧
    (bs < q → effective_n_jobs q bs n = n) ∧
    (q ≤ bs → joblibWorkers (effective_n_jobs q bs n) cpus = 1) ∧
    joblibWorkers (-1) cpus = cpus ∧
    (Q.length ≤ bs → (batchify Q bs).length ≤ 1) := by
  refine ⟨?_, ?_, ?_, by simp [joblibWorkers], ?_⟩
  · intro h; simp [effective_n_jobs, h]
  · intro h; simp [effective_n_jobs, Nat.not_le.mpr h]
  · intro h; simp [effective_n_jobs, h, joblibWorkers]
  · intro h
    cases Q with
    | nil => simp [batchify]
    | cons x xs =>
      cases bs with
      | zero => simp at h
      | succ b =>
        have hx : xs.drop b = [] := by
          apply List.drop_eq_nil_of_le
          simp only [List.length_cons] at h
          omega
        simp [batchify, hx]

/-- Witness for C5: 5 queries in batches of 30 run serially and one batch is
produced; 100 queries in batches of 30 keep the configured `-1`, which maps
to all 8 processors. -/
theorem C5_concurrency_policy_witness :
    effective_n_jobs 5 30 (-1) = 1 ∧
    effective_n_jobs 100 30 (-1) = -1 ∧
    joblibWorkers (effective_n_jobs 5 30 (-1)) 8 = 1 ∧
    joblibWorkers (-1) 8 = 8 ∧
    (batchify ["a", "b"] 30).length ≤ 1 :=
  ⟨(C5_concurrency_policy 5 30 (-1) 8 ["a", "b"]).1 (by decide),
    ((C5_concurrency_policy 100 30 (-1) 8 ["a", "b"]).2).1 (by decide),
    ((C5_concurrency_policy 5 30 (-1) 8 ["a", "b"]).2).2.1 (by decide),
    ((C5_concurrency_policy 5 30 (-1) 8 ["a", "b"]).2).2.2.1,
    ((C5_concurrency_policy 5 30 (-1) 8 ["a", "b"]).2).2.2.2 (by decide)⟩

/-- Sanity bridge between the two embeddings: on an all-successful run the
full (stateful, fallible) `search` returns `ok` of the pure result. -/
theorem searchFull_ok_eq_searchP {σ ε Settings : Type}
    (selectSettings : Except ε Settings)
    (insertQ : σ → List String → Except ε σ)
    (createIdx : Settings → σ → Except ε σ)
    (engineF : Nat → List String → σ → Except ε (List Match))
    (engineP : Nat → List String → List Match)
    (queries0 : String ⊕ List String) (bs : Nat) (s0 : σ) (fs0 : List String)
    (stg : Settings) (s1 s2 : σ)
    (hstg : selectSettings = Except.ok stg)
    (hiq : insertQ s0 (normalizeQueries queries0) = Except.ok s1)
    (hci : createIdx stg s1 = Except.ok s2)
    (hE : ∀ i b, engineF i b s2 = Except.ok (engineP i b)) :
    (searchFull selectSettings insertQ createIdx engineF queries0 bs s0 fs0).1 =
      Except.ok (searchP engineP queries0 bs) := by
  simp only [searchFull, hstg, hiq, hci, searchP]
  exact dispatchBatches_ok_eq engineF engineP s2 hE _ 0 _

/-- Counterexample to claim C2 as stated: a fully successful call with one
query and the default batch size leaves a transient exchange file behind —
the top-level `_queries.parquet` written at line 363 is never removed. -/
theorem C2_cleanup_counterexample :
    (searchFull (Except.ok ()) (fun _ _ => Except.ok ()) (fun _ _ => Except.ok ())
      (fun _ _ _ => (Except.ok [] : Except Unit (List Match)))
      (Sum.inr ["a"]) 30 () ([] : List String)).2.2 ≠ ([] : List String) := by
  have hb : batchify ["a"] 30 = [["a"]] := by simp [batchify]
  simp only [searchFull, normalizeQueries, hb]
  decide

/-- Claim C2 (amended): on a fully successful call every per-batch exchange
artifact (`_queries_{index}.parquet`) is written and removed again, but the
top-level staged `_queries.parquet` is never deleted — the final file state
is exactly the initial one plus the top-level artifact.  (On a failure path
the failing batch's artifact additionally remains, as the counterexample's
mechanism shows: the `os.remove` at line 277 is not in a `finally` block, and
no removal of `_queries.parquet` exists at all.) -/
theorem C2_batch_artifacts_removed_top_leaks {σ ε Settings : Type}
    (selectSettings : Except ε Settings)
    (insertQ : σ → List String → Except ε σ)
    (createIdx : Settings → σ → Except ε σ)
    (engine : Nat → List String → σ → Except ε (List Match))
    (queries0 : String ⊕ List String) (bs : Nat) (s0 : σ) (fs0 : List String)
    (stg : Settings) (s1 s2 : σ)
    (hstg : selectSettings = Except.ok stg)
    (hiq : insertQ s0 (normalizeQueries queries0) = Except.ok s1)
    (hci : createIdx stg s1 = Except.ok s2)
    (hok : ∀ i b, ∃ ms, engine i b s2 = Except.ok ms)
    (hnb : ∀ i, batchFile i ∉ fsWrite topFile fs0) :
    (searchFull selectSettings insertQ createIdx engine queries0 bs s0 fs0).2.2 =
      fsWrite topFile fs0 := by
  simp only [searchFull, hstg, hiq, hci]
  exact dispatchBatches_files_ok engine s2 _ 0 _ hok hnb

/-- Witness for the amended C2: the same successful one-query call ends with
exactly the leaked top-level artifact. -/
theorem C2_batch_artifacts_removed_top_leaks_witness :
    (searchFull (Except.ok ()) (fun _ _ => Except.ok ()) (fun _ _ => Except.ok ())
      (fun _ _ _ => (Except.ok [] : Except Unit (List Match)))
      (Sum.inr ["a"]) 30 () ([] : List String)).2.2 =
      fsWrite topFile [] :=
  C2_batch_artifacts_removed_top_leaks (Except.ok ()) (fun _ _ => Except.ok ())
    (fun _ _ => Except.ok ())
    (fun _ _ _ => (Except.ok [] : Except Unit (List Match)))
    (Sum.inr ["a"]) 30 () [] () () () rfl rfl rfl
    (fun i b => ⟨[], rfl⟩)
    (fun i => by simpa [fsWrite] using batchFile_ne_topFile i)

/-- Claim C4: a failure in the one-time staging/index-build phase
(`_insert_queries` or `_create_queries_index`) or in any batch's retrieval
aborts the whole call with that error surfaced to the caller unmodified; the
outcome is `error e` — never a partial result list and never a silently
empty one. -/
theorem C4_fail_fast {σ ε Settings : Type}
    (selectSettings : Except ε Settings)
    (insertQ : σ → List String → Except ε σ)
    (createIdx : Settings → σ → Except ε σ)
    (engine : Nat → List String → σ → Except ε (List Match))
    (queries0 : String ⊕ List String) (bs : Nat) (s0 : σ) (fs0 : List String)
    (stg : Settings) (s1 s2 : σ) (e : ε) (k : Nat) :
    (selectSettings = Except.ok stg →
      insertQ s0 (normalizeQueries queries0) = Except.error e →
      (searchFull selectSettings insertQ createIdx engine queries0 bs s0 fs0).1 =
        Except.error e) ∧
    (selectSettings = Except.ok stg →
      insertQ s0 (normalizeQueries queries0) = Except.ok s1 →
      createIdx stg s1 = Except.error e →
      (searchFull selectSettings insertQ createIdx engine queries0 bs s0 fs0).1 =
        Except.error e) ∧
    (selectSettings = Except.ok stg →
      insertQ s0 (normalizeQueries queries0) = Except.ok s1 →
      createIdx stg s1 = Except.ok s2 →
      k < (batchify (normalizeQueries queries0) bs).length →
      (∀ i, i < k → ∃ ms,
        engine i ((batchify (normalizeQueries queries0) bs).getD i []) s2 =
          Except.ok ms) →
      engine k ((batchify (normalizeQueries queries0) bs).getD k []) s2 =
        Except.error e →
      (searchFull selectSettings insertQ createIdx engine queries0 bs s0 fs0).1 =
        Except.error e) := by
  refine ⟨?_, ?_, ?_⟩
  · intro hstg hiq
    simp [searchFull, hstg, hiq]
  · intro hstg hiq hci
    simp [searchFull, hstg, hiq, hci]
  · intro hstg hiq hci hk hok hfail
    simp only [searchFull, hstg, hiq, hci]
    exact dispatchBatches_error engine s2 _ k 0 _ e hk
      (fun i hi => by simpa using hok i hi)
      (by simpa using hfail)

/-- Witness for C4: with a single batch whose retrieval raises `7`, the call
surfaces exactly `error 7`. -/
theorem C4_fail_fast_witness :
    (searchFull (Except.ok ()) (fun _ _ => Except.ok ()) (fun _ _ => Except.ok ())
      (fun _ _ _ => (Except.error 7 : Except Nat (List Match)))
      (Sum.inr ["a"]) 30 () ([] : List String)).1 = Except.error 7 :=
  (C4_fail_fast (Except.ok ()) (fun _ _ => Except.ok ()) (fun _ _ => Except.ok ())
      (fun _ _ _ => (Except.error 7 : Except Nat (List Match)))
      (Sum.inr ["a"]) 30 () [] () () () 7 0).2.2 rfl rfl rfl
    (by simp [batchify, normalizeQueries])
    (fun i hi => absurd hi (Nat.not_lt_zero i)) rfl

/-- Claim C6: each call stages the whole QuerySet and mutates the persistent
schema exactly once — `_insert_queries` followed by `_create_queries_index` —
strictly before the batched retrieval phase; retrieval is read-only, so the
schema state the call ends with is exactly the post-index-build state `s2`,
whatever the batches return and even if they fail. -/
theorem C6_schema_mutated_once_before_retrieval {σ ε Settings : Type}
    (selectSettings : Except ε Settings)
    (insertQ : σ → List String → Except ε σ)
    (createIdx : Settings → σ → Except ε σ)
    (engine : Nat → List String → σ → Except ε (List Match))
    (queries0 : String ⊕ List String) (bs : Nat) (s0 : σ) (fs0 : List String)
    (stg : Settings) (s1 s2 : σ)
    (hstg : selectSettings = Except.ok stg)
    (hiq : insertQ s0 (normalizeQueries queries0) = Except.ok s1)
    (hci : createIdx stg s1 = Except.ok s2) :
    (searchFull selectSettings insertQ createIdx engine queries0 bs s0 fs0).2.1 =
      s2 := by
  simp only [searchFull, hstg, hiq, hci]
  exact dispatchBatches_state engine _ 0 s2 _

/-- Witness for C6: the schema counter records one insert (+1) and one index
build (+10); a failing retrieval phase still leaves it at 11. -/
theorem C6_schema_mutated_once_before_retrieval_witness :
    (searchFull (Except.ok ()) (fun s _ => Except.ok (s + 1))
      (fun _ s => Except.ok (s + 10))
      (fun _ _ _ => (Except.error () : Except Unit (List Match)))
      (Sum.inr ["a", "b"]) 1 (0 : Nat) ([] : List String)).2.1 = 11 :=
  C6_schema_mutated_once_before_retrieval (Except.ok ())
    (fun s _ => Except.ok (s + 1)) (fun _ s => Except.ok (s + 10))
    (fun _ _ _ => (Except.error () : Except Unit (List Match)))
    (Sum.inr ["a", "b"]) 1 0 [] () 1 11 rfl rfl rfl
